import Mathlib

/-!
Verification of the block-summation utility `src/puzzle/2022/d01/main.cpp`.

The program reads lines from standard input.  A non-blank line is parsed
with `stoi` and added to a running accumulator `count`; a blank line pushes
the accumulator onto the vector `elfs` and resets it to zero.  After the
stream ends the vector is sorted descending and the sum of its first three
entries is printed.

Embedding choices:
* A line is `Option Int`: `none` is a blank line, `some v` a line whose
  text parses to the integer `v`.  Lines whose text is neither blank nor a
  valid integer make `stoi` throw in the source; they are outside the model.
* C++ `int` arithmetic is modelled by unbounded `Int`; no claim concerns
  overflow.
* `vector::operator[]` past the end of the vector is undefined behaviour in
  the source; the model makes that case explicit by returning `none` for
  the whole output.
-/

/-- A line of input: `none` stands for a blank line, `some v` for a line
holding the integer `v`. -/
abbrev Line := Option Int

/-- The `while (getline(cin, line))` loop of `main`: `cnt` is the running
accumulator `count`, `elfs` the vector of recorded block sums.  A blank line
pushes `cnt` onto `elfs` and resets the accumulator; an integer line adds
its value to the accumulator. -/
def runScan : List Line → Int → List Int → List Int
  | [], _, elfs => elfs
  | none :: rest, cnt, elfs => runScan rest 0 (elfs ++ [cnt])
  | some v :: rest, cnt, elfs => runScan rest (cnt + v) elfs

/-- The accumulator `count` after the loop has consumed the input; it is
never flushed at end of stream. -/
def runCount : List Line → Int → Int
  | [], cnt => cnt
  | none :: rest, _ => runCount rest 0
  | some v :: rest, cnt => runCount rest (cnt + v)

/-- The block sums recorded by a full run of the loop from the initial
state of `main` (`count = 0`, `elfs` empty). -/
def blockSums (input : List Line) : List Int := runScan input 0 []

/-- The call `sort(elfs.begin(), elfs.end(), greater())`: sort in
descending order. -/
def sortDesc (l : List Int) : List Int := l.insertionSort (· ≥ ·)

/-- Modelled from the spec: the loop macro of the included header
`stdc++.h` is not among the repository sources; per the spec the loop sums
the first three elements (indices 0, 1 and 2) of the sorted sequence.
An access past the end of the vector is undefined behaviour, modelled as
`none`. -/
def top3 (l : List Int) : Option Int :=
  match l[0]?, l[1]?, l[2]? with
  | some a, some b, some c => some (a + b + c)
  | _, _, _ => none

/-- The value printed by `main`, or `none` when the top-3 access is out of
bounds. -/
def progOutput (input : List Line) : Option Int :=
  top3 (sortDesc (blockSums input))

/-- Spec-side description of a well-formed input: a list of groups of
integers, each group rendered as its lines followed by the blank line that
terminates it. -/
def joinGroups : List (List Int) → List Line
  | [] => []
  | g :: gs => g.map some ++ none :: joinGroups gs

/-- Spec-side single-line transition: on a blank line append the
accumulator to the result sequence and reset it to zero; on an integer
line add the value to the accumulator. -/
def specStep (st : Int × List Int) (line : Line) : Int × List Int :=
  match line with
  | none => (0, st.2 ++ [st.1])
  | some v => (st.1 + v, st.2)

/-! ### Basic lemmas about the scan -/

theorem runScan_append (xs ys : List Line) (cnt : Int) (elfs : List Int) :
    runScan (xs ++ ys) cnt elfs = runScan ys (runCount xs cnt) (runScan xs cnt elfs) := by
  induction xs generalizing cnt elfs with
  | nil => rfl
  | cons l rest ih =>
    cases l with
    | none => simpa [runScan, runCount] using ih 0 (elfs ++ [cnt])
    | some v => simpa [runScan, runCount] using ih (cnt + v) elfs

theorem runScan_elfs_acc (xs : List Line) (cnt : Int) (elfs : List Int) :
    runScan xs cnt elfs = elfs ++ runScan xs cnt [] := by
  induction xs generalizing cnt elfs with
  | nil => simp [runScan]
  | cons l rest ih =>
    cases l with
    | none =>
      rw [runScan, runScan, ih 0 (elfs ++ [cnt]), ih 0 ([] ++ [cnt])]
      simp
    | some v =>
      rw [runScan, runScan, ih (cnt + v) elfs]

theorem length_runScan (xs : List Line) (cnt : Int) (elfs : List Int) :
    (runScan xs cnt elfs).length = elfs.length + xs.countP (fun l => l.isNone) := by
  induction xs generalizing cnt elfs with
  | nil => simp [runScan]
  | cons l rest ih =>
    cases l with
    | none =>
      rw [runScan, ih 0 (elfs ++ [cnt])]
      simp [List.countP_cons]
      omega
    | some v =>
      rw [runScan, ih (cnt + v) elfs]
      simp [List.countP_cons]

theorem runScan_map_some (g : List Int) (rest : List Line) (cnt : Int) (elfs : List Int) :
    runScan (g.map some ++ rest) cnt elfs = runScan rest (cnt + g.sum) elfs := by
  induction g generalizing cnt with
  | nil => simp [runScan]
  | cons v g ih =>
    rw [List.map_cons, List.cons_append, runScan, ih (cnt + v), List.sum_cons, add_assoc]

theorem runCount_map_some (g : List Int) (rest : List Line) (cnt : Int) :
    runCount (g.map some ++ rest) cnt = runCount rest (cnt + g.sum) := by
  induction g generalizing cnt with
  | nil => simp [runCount]
  | cons v g ih =>
    rw [List.map_cons, List.cons_append, runCount, ih (cnt + v), List.sum_cons, add_assoc]

theorem blockSums_joinGroups (gs : List (List Int)) :
    blockSums (joinGroups gs) = gs.map List.sum := by
  induction gs with
  | nil => rfl
  | cons g gs ih =>
    show runScan (joinGroups (g :: gs)) 0 [] = _
    rw [joinGroups, runScan_map_some]
    show runScan (joinGroups gs) 0 [0 + g.sum] = _
    rw [runScan_elfs_acc]
    show [0 + g.sum] ++ blockSums (joinGroups gs) = _
    rw [ih]
    simp

/-! ### Lemmas about the descending sort and the top-3 window -/

theorem sortDesc_perm (l : List Int) : (sortDesc l).Perm l :=
  List.perm_insertionSort _ l

theorem sortDesc_sorted (l : List Int) : List.Sorted (· ≥ ·) (sortDesc l) :=
  List.sorted_insertionSort _ l

theorem length_sortDesc (l : List Int) : (sortDesc l).length = l.length :=
  (sortDesc_perm l).length_eq

theorem sortDesc_eq_of_perm {l1 l2 : List Int} (h : l1.Perm l2) :
    sortDesc l1 = sortDesc l2 :=
  List.eq_of_perm_of_sorted ((sortDesc_perm l1).trans (h.trans (sortDesc_perm l2).symm))
    (sortDesc_sorted l1) (sortDesc_sorted l2)

theorem top3_eq_none_iff (l : List Int) : top3 l = none ↔ l.length < 3 := by
  rcases l with _ | ⟨a, l⟩
  · simp [top3]
  rcases l with _ | ⟨b, l⟩
  · simp [top3]
  rcases l with _ | ⟨c, l⟩
  · simp [top3]
  · simp [top3]

theorem top3_eq_take_sum (l : List Int) (h : 3 ≤ l.length) :
    top3 l = some (l.take 3).sum := by
  rcases l with _ | ⟨a, l⟩
  · simp at h
  rcases l with _ | ⟨b, l⟩
  · simp at h
  rcases l with _ | ⟨c, l⟩
  · simp at h
  · simp [top3, add_assoc]

theorem runScan_no_blank (ys : List Line) (h : ∀ l ∈ ys, l ≠ none) (cnt : Int)
    (elfs : List Int) : runScan ys cnt elfs = elfs := by
  induction ys generalizing cnt with
  | nil => rfl
  | cons l rest ih =>
    cases l with
    | none => exact absurd rfl (h none (by simp))
    | some v => exact ih (fun x hx => h x (by simp [hx])) (cnt + v)

theorem runScan_replicate_blank (j : Nat) (elfs : List Int) :
    runScan (List.replicate j none) 0 elfs = elfs ++ List.replicate j 0 := by
  induction j generalizing elfs with
  | zero => simp [runScan]
  | succ j ih =>
    rw [List.replicate_succ, runScan, ih (elfs ++ [0]), List.replicate_succ]
    simp

theorem runCount_replicate_blank (j : Nat) (cnt : Int) :
    runCount (List.replicate (j + 1) none) cnt = 0 := by
  induction j generalizing cnt with
  | zero => rfl
  | succ j ih =>
    rw [List.replicate_succ, runCount]
    exact ih 0

/-! ### Claims -/

/-- C1: for every input whose groups are each terminated by a blank line
and that records at least three block sums, the program prints the sum of
the three largest block sums, each block sum being the sum of the integers
in its group. -/
theorem c1_top3_of_terminated_groups (gs : List (List Int)) (h : 3 ≤ gs.length) :
    progOutput (joinGroups gs) = some ((sortDesc (gs.map List.sum)).take 3).sum := by
  unfold progOutput
  rw [blockSums_joinGroups]
  exact top3_eq_take_sum _ (by rw [length_sortDesc, List.length_map]; exact h)

/-- Witness for C1 at the concrete group list [[1], [2], [3]]. -/
theorem c1_witness :
    3 ≤ ([[(1 : Int)], [2], [3]] : List (List Int)).length ∧
      progOutput (joinGroups [[(1 : Int)], [2], [3]]) =
        some ((sortDesc (([[(1 : Int)], [2], [3]] : List (List Int)).map List.sum)).take 3).sum :=
  ⟨by decide, c1_top3_of_terminated_groups [[(1 : Int)], [2], [3]] (by decide)⟩

/-- C2 counterexample: on the input whose lines are 3, 4, blank, 5, blank,
10, 20, 30 (the last group is not followed by a blank line) only the two
block sums 7 and 5 are recorded, the top-3 access is out of bounds, and in
particular the output is not 72 as the claim states. -/
theorem c2_counterexample :
    progOutput [some 3, some 4, none, some 5, none, some 10, some 20, some 30] = none ∧
      progOutput [some 3, some 4, none, some 5, none, some 10, some 20, some 30] ≠ some 72 := by
  decide

/-- C2 amended: on the same lines with a final blank line terminating the
last group, the three block sums 7, 5 and 60 are recorded and the program
outputs 72. -/
theorem c2_amended_output72 :
    progOutput [some 3, some 4, none, some 5, none, some 10, some 20, some 30, none] =
      some 72 := by
  decide

/-- C3: a trailing run of non-blank lines is never recorded as a block sum
and is excluded from the top-three selection: appending blank-free lines to
an input changes neither the recorded block sums nor the output. -/
theorem c3_trailing_block_dropped (xs ys : List Line) (h : ∀ l ∈ ys, l ≠ none) :
    blockSums (xs ++ ys) = blockSums xs ∧ progOutput (xs ++ ys) = progOutput xs := by
  have h1 : blockSums (xs ++ ys) = blockSums xs := by
    unfold blockSums
    rw [runScan_append, runScan_no_blank ys h]
  exact ⟨h1, by unfold progOutput; rw [h1]⟩

/-- Witness for C3: the trailing line 4 is dropped. -/
theorem c3_witness :
    (∀ l ∈ [some (4 : Int)], l ≠ none) ∧
      (blockSums ([some 1, none, some 2, none, some 3, none] ++ [some (4 : Int)]) =
          blockSums [some 1, none, some 2, none, some 3, none] ∧
        progOutput ([some 1, none, some 2, none, some 3, none] ++ [some (4 : Int)]) =
          progOutput [some 1, none, some 2, none, some 3, none]) :=
  ⟨by decide, c3_trailing_block_dropped [some 1, none, some 2, none, some 3, none]
    [some (4 : Int)] (by decide)⟩

/-- C4: the top-3 access is out of bounds exactly when fewer than three
block sums are recorded; with at least three recorded block sums all three
accesses are in bounds and the out-of-bounds case is unreachable. -/
theorem c4_bounds_iff (input : List Line) :
    progOutput input = none ↔ (blockSums input).length < 3 := by
  unfold progOutput
  rw [top3_eq_none_iff, length_sortDesc]

/-- C5: when exactly three block sums are recorded, the output is the sum
of all of them. -/
theorem c5_exactly_three (input : List Line) (h : (blockSums input).length = 3) :
    progOutput input = some (blockSums input).sum := by
  unfold progOutput
  rw [top3_eq_take_sum _ (by rw [length_sortDesc, h]),
    List.take_of_length_le (by rw [length_sortDesc, h])]
  exact congrArg some ((sortDesc_perm _).sum_eq)

/-- Witness for C5 at an input with block sums 1, 0 and 2. -/
theorem c5_witness :
    (blockSums [some (1 : Int), none, none, some 2, none]).length = 3 ∧
      progOutput [some (1 : Int), none, none, some 2, none] =
        some (blockSums [some (1 : Int), none, none, some 2, none]).sum :=
  ⟨by decide, c5_exactly_three [some (1 : Int), none, none, some 2, none] (by decide)⟩

/-- C6 counterexample: permuting the groups of an input whose last group is
not terminated by a blank line can change the output, because a different
group falls into the dropped trailing position.  The blank lines sit at the
same positions in both inputs. -/
theorem c6_counterexample :
    progOutput [some 10, none, some 20, none, some 30, none, some 40] ≠
      progOutput [some 40, none, some 10, none, some 20, none, some 30] := by
  decide

/-- C6 amended: for inputs whose groups are each terminated by a blank
line, permuting the order of the groups leaves the output unchanged. -/
theorem c6_amended_perm_invariant (gs1 gs2 : List (List Int)) (h : gs1.Perm gs2) :
    progOutput (joinGroups gs1) = progOutput (joinGroups gs2) := by
  unfold progOutput
  rw [blockSums_joinGroups, blockSums_joinGroups, sortDesc_eq_of_perm (h.map List.sum)]

/-- Witness for the amended C6 at the concrete group lists [[1, 2], [3]]
and [[3], [1, 2]]. -/
theorem c6_witness :
    ([[(1 : Int), 2], [3]] : List (List Int)).Perm [[3], [(1 : Int), 2]] ∧
      progOutput (joinGroups [[(1 : Int), 2], [3]]) =
        progOutput (joinGroups [[3], [(1 : Int), 2]]) :=
  ⟨by decide, c6_amended_perm_invariant [[(1 : Int), 2], [3]] [[3], [(1 : Int), 2]] (by decide)⟩

/-- C7: after any number of lines of the scan, and in particular at end of
input, the number of recorded block sums equals the number of blank lines
read so far; a trailing partial block is never counted. -/
theorem c7_count_invariant (input : List Line) (k : Nat) :
    (blockSums (input.take k)).length = (input.take k).countP (fun l => l.isNone) := by
  unfold blockSums
  rw [length_runScan]
  simp

/-- C8: processing the input line by line with the step of the claim (a
blank line appends the accumulator to the result sequence and resets it, an
integer line adds its value to the accumulator) computes exactly the scan
state of the loop: the accumulator and the recorded block sums. -/
theorem c8_step_refinement (input : List Line) (cnt : Int) (elfs : List Int) :
    input.foldl specStep (cnt, elfs) = (runCount input cnt, runScan input cnt elfs) := by
  induction input generalizing cnt elfs with
  | nil => rfl
  | cons l rest ih =>
    cases l with
    | none => exact ih 0 (elfs ++ [cnt])
    | some v => exact ih (cnt + v) elfs

/-- C9: the program is deterministic; two runs on the same input yield the
same output. -/
theorem c9_deterministic (input : List Line) (r1 r2 : Option Int)
    (h1 : progOutput input = r1) (h2 : progOutput input = r2) : r1 = r2 :=
  h1.symm.trans h2

/-- Witness for C9 at the input of three blank lines. -/
theorem c9_witness :
    progOutput [none, none, none] = some 0 ∧ (some (0 : Int) : Option Int) = some 0 :=
  ⟨by decide, c9_deterministic [none, none, none] (some 0) (some 0) (by decide) (by decide)⟩

/-- C10: a run of k consecutive blank lines appends exactly k block sums:
the first records the accumulator reached before the run (zero when the run
starts the input or follows another blank line), the remaining k - 1 record
zero, and the rest of the input is then scanned from a reset state. -/
theorem c10_blank_run (xs rest : List Line) (k : Nat) (h : 1 ≤ k) :
    blockSums (xs ++ (List.replicate k none ++ rest)) =
      blockSums xs ++ (runCount xs 0 :: List.replicate (k - 1) 0) ++ blockSums rest := by
  obtain ⟨j, rfl⟩ : ∃ j, k = j + 1 := ⟨k - 1, (Nat.succ_pred_eq_of_pos h).symm⟩
  unfold blockSums
  rw [runScan_append, runScan_append, runCount_replicate_blank, List.replicate_succ, runScan,
    runScan_replicate_blank, runScan_elfs_acc rest 0]
  simp

/-- Witness for C10: a run of two blank lines after the line 5 records the
block sums 5 and 0. -/
theorem c10_witness :
    1 ≤ 2 ∧
      blockSums ([some (5 : Int)] ++ (List.replicate 2 none ++ [some 1, none])) =
        blockSums [some (5 : Int)] ++
          (runCount [some (5 : Int)] 0 :: List.replicate (2 - 1) 0) ++
          blockSums [some 1, none] :=
  ⟨by decide, c10_blank_run [some (5 : Int)] [some 1, none] 2 (by decide)⟩
